import Mathlib

/-!
Verification development for the production-dump comparison pipeline
(`prodvsprod.py`).  The Python program is shallowly embedded: pure string
and list manipulation is translated function-by-function; filesystem and
process effects (directory walks, spreadsheet writes, e-mail, exit codes)
are represented by explicit input records and result records.  Machine-level
details that the claims do not touch (actual SHA-256 digest bits, xlsx byte
layout) are abstracted as opaque values carried through faithfully.
-/

namespace ProdVsProd

/- ===== character-level string primitives =====
Python compares strings lexicographically by code point, strips ASCII
whitespace with str.strip(), and lower-cases with str.lower().  These are
modelled on the underlying character lists so that everything evaluates
inside the kernel. -/

/-- Lexicographic comparison of character lists by code point, the ordering
Python uses for str; this is `a <= b`. -/
def lexLe : List Char → List Char → Bool
  | [], _ => true
  | _ :: _, [] => false
  | a :: as, b :: bs =>
    if a.toNat < b.toNat then true
    else if b.toNat < a.toNat then false
    else lexLe as bs

/-- Whitespace characters removed by Python str.strip() (ASCII subset). -/
def isPySpace (c : Char) : Bool :=
  c.toNat = 32 ∨ c.toNat = 9 ∨ c.toNat = 10 ∨ c.toNat = 13 ∨
  c.toNat = 11 ∨ c.toNat = 12

/-- Python str.strip(): drop leading and trailing whitespace. -/
def stripChars (cs : List Char) : List Char :=
  ((cs.dropWhile isPySpace).reverse.dropWhile isPySpace).reverse

/-- Python str.strip() lifted to String. -/
def stripStr (s : String) : String :=
  String.mk (stripChars s.data)

/-- ASCII lower-casing of one character (Python str.lower() on ASCII data). -/
def lowerChar (c : Char) : Char :=
  if 65 ≤ c.toNat ∧ c.toNat ≤ 90 then Char.ofNat (c.toNat + 32) else c

/-- Boolean list-prefix test (Python str.startswith on character lists). -/
def listStartsWith : List Char → List Char → Bool
  | [], _ => true
  | _ :: _, [] => false
  | p :: ps, c :: cs => if p = c then listStartsWith ps cs else false

/- ===== date-token parsing (prodvsprod.py, parse_dump_date_token) =====
DATE_TOKEN_RE = (\d{1,2})(?:st|nd|rd|th)?([A-Za-z]+)(\d{4}), searched
left-to-right with Python backtracking semantics: two day digits are tried
before one, an ordinal suffix is consumed greedily with a no-suffix retry,
the month token is a maximal alphabetic run (letters can never satisfy the
following \d{4}, so the maximal run is the only candidate), then exactly
four digits are required. -/

/-- Calendar date as produced by datetime.date. -/
structure DumpDate where
  year : Nat
  month : Nat
  day : Nat
deriving DecidableEq, Repr

/-- Python datetime.date strict comparison, lexicographic on (y, m, d). -/
def dateLt (a b : DumpDate) : Bool :=
  a.year < b.year ∨
  (a.year = b.year ∧ (a.month < b.month ∨ (a.month = b.month ∧ a.day < b.day)))

/-- Numeric value of a decimal digit character. -/
def digitVal (c : Char) : Nat := c.toNat - 48

/-- Match ([A-Za-z]+)(\d{4}) at the head of the character list, returning
the month token and the year. -/
def matchMonthYear (cs : List Char) : Option (List Char × Nat) :=
  let alpha := cs.takeWhile (fun c => c.isAlpha)
  let rest := cs.dropWhile (fun c => c.isAlpha)
  match alpha, rest with
  | [], _ => none
  | _, y1 :: y2 :: y3 :: y4 :: _ =>
    if y1.isDigit ∧ y2.isDigit ∧ y3.isDigit ∧ y4.isDigit then
      some (alpha,
        digitVal y1 * 1000 + digitVal y2 * 100 + digitVal y3 * 10 + digitVal y4)
    else none
  | _, _ => none

/-- Match (?:st|nd|rd|th)?([A-Za-z]+)(\d{4}): greedily try the ordinal
suffix first, then retry without it, as the regex engine does. -/
def matchSuffixMonthYear : List Char → Option (List Char × Nat)
  | a :: b :: rest =>
    if (a = 's' ∧ b = 't') ∨ (a = 'n' ∧ b = 'd') ∨
       (a = 'r' ∧ b = 'd') ∨ (a = 't' ∧ b = 'h') then
      match matchMonthYear rest with
      | some r => some r
      | none => matchMonthYear (a :: b :: rest)
    else matchMonthYear (a :: b :: rest)
  | cs => matchMonthYear cs

/-- Match the full token (\d{1,2})(?:st|nd|rd|th)?([A-Za-z]+)(\d{4}) at the
head of the list: two day digits are tried before one. -/
def matchDay : List Char → Option (Nat × List Char × Nat)
  | c1 :: c2 :: rest =>
    if c1.isDigit then
      if c2.isDigit then
        match matchSuffixMonthYear rest with
        | some (m, y) => some (digitVal c1 * 10 + digitVal c2, m, y)
        | none =>
          match matchSuffixMonthYear (c2 :: rest) with
          | some (m, y) => some (digitVal c1, m, y)
          | none => none
      else
        match matchSuffixMonthYear (c2 :: rest) with
        | some (m, y) => some (digitVal c1, m, y)
        | none => none
    else none
  | _ => none

/-- re.search: try the pattern at each successive start position. -/
def searchDateToken : List Char → Option (Nat × List Char × Nat)
  | [] => none
  | c :: cs =>
    match matchDay (c :: cs) with
    | some r => some r
    | none => searchDateToken cs

/-- Month-name lookup of parse_dump_date_token: the lowered token is matched
by startswith against the keys in source order; both "sept" and "sep"
normalize to September. -/
def monthFromToken (tok : List Char) : Option Nat :=
  let t := tok.map lowerChar
  if listStartsWith ['s','e','p','t'] t then some 9
  else if listStartsWith ['s','e','p'] t then some 9
  else if listStartsWith ['j','a','n'] t then some 1
  else if listStartsWith ['f','e','b'] t then some 2
  else if listStartsWith ['m','a','r'] t then some 3
  else if listStartsWith ['a','p','r'] t then some 4
  else if listStartsWith ['m','a','y'] t then some 5
  else if listStartsWith ['j','u','n'] t then some 6
  else if listStartsWith ['j','u','l'] t then some 7
  else if listStartsWith ['a','u','g'] t then some 8
  else if listStartsWith ['o','c','t'] t then some 10
  else if listStartsWith ['n','o','v'] t then some 11
  else if listStartsWith ['d','e','c'] t then some 12
  else none

/-- Number of days in a month, Gregorian rules, as datetime.date validates. -/
def daysInMonth (year month : Nat) : Nat :=
  if month = 2 then
    if year % 4 = 0 ∧ (year % 100 ≠ 0 ∨ year % 400 = 0) then 29 else 28
  else if month = 4 ∨ month = 6 ∨ month = 9 ∨ month = 11 then 30
  else 31

/-- parse_dump_date_token: extract a date token such as "4thSept2025" from a
dump folder name; invalid calendar dates (datetime.date raising ValueError)
yield none. -/
def parse_dump_date_token (name : String) : Option DumpDate :=
  match searchDateToken name.data with
  | none => none
  | some (day, monTok, year) =>
    match monthFromToken monTok with
    | none => none
    | some month =>
      if 1 ≤ year ∧ 1 ≤ day ∧ day ≤ daysInMonth year month then
        some ⟨year, month, day⟩
      else none

/-- find_latest_dump_by_name: keep the candidates whose names parse to a
date, stable-sort descending by that date and take the first, i.e. the
earliest-listed candidate with the maximal date; none when nothing parses
(the Python function calls sys.exit there). -/
def find_latest_dump_by_name (dirs : List String) : Option String :=
  let dated := dirs.filterMap
    (fun n => (parse_dump_date_token n).map (fun d => (d, n)))
  match dated with
  | [] => none
  | x :: xs =>
    some (xs.foldl (fun best y => if dateLt best.1 y.1 then y else best) x).2

/- ===== diff engine (prodvsprod.py, main lines 547-557) =====
A snapshot working copy is modelled as an association list from the
walk-relative path (its segment list, Python Path.parts) to the data the
diff reads from the file: st_size from os.stat, and the sha256 digest when
the file can be opened and read.  readData = none models an OSError raised
while hashing (permission denied, file removed mid-walk); the digest string
abstracts hashlib.sha256(contents).hexdigest(). -/

/-- Relative path as its list of segments (Python Path.parts). -/
abbrev FPath := List String

/-- Per-file data visible to the diff: size and, when readable, digest. -/
structure FileEntry where
  sizeBytes : Nat
  readData : Option String
deriving DecidableEq, Repr

/-- One materialized snapshot tree: relative path to file data. -/
abbrev Tree := List (FPath × FileEntry)

/-- Keys of the walk dictionary prev_files / latest_files. -/
def treeKeys (t : Tree) : List FPath := t.map (fun e => e.1)

/-- Dictionary lookup prev_files[r]. -/
def lookupTree (t : Tree) (r : FPath) : Option FileEntry :=
  (t.find? (fun e => decide (e.1 = r))).map (fun e => e.2)

/-- sha256(p): return the digest, or raise (error) when the file cannot be
read. -/
def sha256 (f : FileEntry) : Except Unit String :=
  match f.readData with
  | some d => Except.ok d
  | none => Except.error ()

/-- new_rel: keys of the latest tree absent from the previous tree, in walk
order. -/
def newRel (prev latest : Tree) : List FPath :=
  (treeKeys latest).filter (fun r => decide (¬ r ∈ treeKeys prev))

/-- removed_rel: keys of the previous tree absent from the latest tree. -/
def removedRel (prev latest : Tree) : List FPath :=
  (treeKeys prev).filter (fun r => decide (¬ r ∈ treeKeys latest))

/-- Python sorts the common relative paths as Path objects, which compare by
their joined string form; join the segments with the separator. -/
def joinPath : FPath → List Char
  | [] => []
  | [s] => s.data
  | s :: rest => s.data ++ '/' :: joinPath rest

/-- Path ordering used by sorted() over Path objects. -/
def pathLe (a b : FPath) : Prop := lexLe (joinPath a) (joinPath b) = true

instance : DecidableRel pathLe := fun a b =>
  inferInstanceAs (Decidable (_ = true))

/-- sorted(set(prev_files) & set(latest_files)). -/
def commonSorted (prev latest : Tree) : List FPath :=
  List.insertionSort pathLe
    (((treeKeys prev).filter (fun r => decide (r ∈ treeKeys latest))).dedup)

/-- Body of the changed-files loop for one common path: when the sizes
match, both files are hashed (each hash may raise); the file counts as
changed unless size and digest both agree.  A size difference short-circuits
before any hashing, exactly like the Python and-expression. -/
def changedStep (a b : FileEntry) : Except Unit Bool :=
  if a.sizeBytes = b.sizeBytes then do
    let ha ← sha256 a
    let hb ← sha256 b
    pure (decide (¬ ha = hb))
  else pure true

/-- The changed-files loop over a list of common paths; the first read
failure propagates out of the loop as the Python exception would. -/
def changedLoop (prev latest : Tree) : List FPath → Except Unit (List FPath)
  | [] => Except.ok []
  | r :: rs =>
    match lookupTree prev r, lookupTree latest r with
    | some a, some b => do
      let c ← changedStep a b
      let rest ← changedLoop prev latest rs
      pure (if c then r :: rest else rest)
    | _, _ => changedLoop prev latest rs

/-- changed_rel: run the loop over the sorted common paths of both trees. -/
def changedRelE (prev latest : Tree) : Except Unit (List FPath) :=
  changedLoop prev latest (commonSorted prev latest)

/-- Specification of one loop iteration when every read succeeds: the
common path r counts as changed unless size and digest both agree.  Used to
state the loop characterization lemma. -/
def changedTest (prev latest : Tree) (r : FPath) : Bool :=
  match lookupTree prev r, lookupTree latest r with
  | some a, some b =>
    match a.readData, b.readData with
    | some ha, some hb => decide (¬ (a.sizeBytes = b.sizeBytes ∧ ha = hb))
    | _, _ => false
  | _, _ => false

/-- Every file of the tree can be opened and hashed. -/
def allReadable (t : Tree) : Prop := ∀ e ∈ t, (e.2.readData).isSome = true

instance (t : Tree) : Decidable (allReadable t) :=
  inferInstanceAs (Decidable (∀ e ∈ t, _))

/- ===== aggregator (prodvsprod.py, main lines 559-564) ===== -/

/-- top_folder: first segment of the relative path; rel.parts is empty only
for the bare root path, which maps to the synthetic bucket. -/
def top_folder : FPath → String
  | [] => "(root)"
  | s :: _ => s

/-- Counter(top_folder(r) for r in rs) looked up at one category. -/
def categoryCount (rs : List FPath) (c : String) : Nat :=
  (rs.map top_folder).count c

/- ===== historical index (prodvsprod.py, main lines 661-686) ===== -/

/-- One entry of reports.json. -/
structure RunRecord where
  runDate : String
  apiVersion : String
  title : String
  oldDumpLabel : String
  newDumpLabel : String
  detailHref : String
  compareHref : String
deriving DecidableEq, Repr

/-- Key order of sorted(existing, key=lambda x: x["runDate"]): Python string
comparison of the runDate fields. -/
def recordLe (a b : RunRecord) : Prop :=
  lexLe a.runDate.data b.runDate.data = true

instance : DecidableRel recordLe := fun a b =>
  inferInstanceAs (Decidable (_ = true))

/-- The seen/merged deduplication loop: keep the first record carrying each
detailHref, in list order. -/
def dedupeByHref : List String → List RunRecord → List RunRecord
  | _, [] => []
  | seen, r :: rs =>
    if r.detailHref ∈ seen then dedupeByHref seen rs
    else r :: dedupeByHref (r.detailHref :: seen) rs

/-- sorted(..., key=runDate) is Python stable sort; insertion sort with the
non-strict key order produces the same list. -/
def sortRecords (l : List RunRecord) : List RunRecord :=
  List.insertionSort recordLe l

/-- reports.json update: append the new entry, stable-sort by runDate, and
keep the first record per detailHref. -/
def updateIndex (existing : List RunRecord) (entry : RunRecord) : List RunRecord :=
  dedupeByHref [] (sortRecords (existing ++ [entry]))

/-- The stored reports.json file: either valid JSON encoding a record list,
or bytes that json.loads rejects even though they were written for the given
records (truncation, corruption, hand edits). -/
inductive StoredIndex where
  | parsed (records : List RunRecord)
  | corrupt (records : List RunRecord)
deriving DecidableEq, Repr

/-- Reading the index: json.loads inside try, with except giving []. -/
def loadIndex : StoredIndex → List RunRecord
  | StoredIndex.parsed rs => rs
  | StoredIndex.corrupt _ => []

/-- The full read-append-dedupe-rewrite of reports.json for one run. -/
def rewriteIndex (stored : StoredIndex) (entry : RunRecord) : List RunRecord :=
  updateIndex (loadIndex stored) entry

/- ===== pipeline control flow (prodvsprod.py, main) =====
The run is modelled as a function from the state main reads (pointer file
contents, dump folder names, the copied trees and their top-level category
sets, the configured required list, and availability flags for the xlsx
backend and the two templates) to the externally observable result: which
terminal branch was taken, the process exit code, the pointer file contents
at exit, whether the dated run directory and report artifacts were created,
whether reports.json was rewritten, and the subjects handed to send_mail.
File-system truth is summarized in the input record: membership of the
pointer name in dumpDirs stands for old_src.exists(), and openpyxlOk/xlsxOk
stand for the import and the four Workbook.save calls (any failure exits
with code 6).  Mail delivery details, the external Beyond Compare step (run
with check=False and wrapped in try) and HTML rendering are outside the
claims and are not modelled beyond the mail subjects. -/

/-- Terminal branches of one run. -/
inductive Outcome where
  | success
  | noNewData
  | configError
  | structuralMismatch
  | missingRequired
  | reportWriteFail
  | templateMissing
  | diffCrash
deriving DecidableEq, Repr

/-- Process exit code of each terminal branch: sys.exit(0) for the no-new-
data abort, implicit 0 on success, sys.exit(1)/sys.exit(msg) for pointer and
date problems and missing templates, 2 for parity, 3 for required metadata,
6 for xlsx failures, and 1 for an uncaught exception. -/
def exitCode : Outcome → Nat
  | Outcome.success => 0
  | Outcome.noNewData => 0
  | Outcome.configError => 1
  | Outcome.structuralMismatch => 2
  | Outcome.missingRequired => 3
  | Outcome.reportWriteFail => 6
  | Outcome.templateMissing => 1
  | Outcome.diffCrash => 1

/-- Everything main reads before and during one run. -/
structure PipelineInput where
  lastRaw : String
  dumpDirs : List String
  tlPrev : List String
  tlNew : List String
  req : List String
  prevTree : Tree
  latestTree : Tree
  openpyxlOk : Bool
  xlsxOk : Bool
  detailTplOk : Bool
  indexTplOk : Bool
deriving Repr

/-- Externally observable result of one run. -/
structure RunResult where
  outcome : Outcome
  pointerAfter : String
  runDirCreated : Bool
  artifactsWritten : Bool
  indexRewritten : Bool
  diffComputed : Option (List FPath × List FPath × List FPath)
  mailSubjects : List String
deriving Repr

/-- The main pipeline, stage by stage in source order: pointer resolution,
latest-dump resolution, the same-dump abort, run-directory creation, parity
and required-metadata validation, the three-way diff, the xlsx reports, the
detail page, the reports.json rewrite, the master page, and only then the
pointer update. -/
def runPipeline (w : PipelineInput) : RunResult :=
  let oldName := stripStr w.lastRaw
  if oldName = "" then
    ⟨Outcome.configError, w.lastRaw, false, false, false, none,
      ["[ProdvsProd] lastdumpcomp.date is empty"]⟩
  else if ¬ oldName ∈ w.dumpDirs then
    ⟨Outcome.configError, w.lastRaw, false, false, false, none,
      ["[ProdvsProd] previous dump missing"]⟩
  else
    match find_latest_dump_by_name w.dumpDirs with
    | none =>
      ⟨Outcome.configError, w.lastRaw, false, false, false, none, []⟩
    | some latestName =>
      if oldName = latestName then
        ⟨Outcome.noNewData, w.lastRaw, false, false, false, none,
          ["[ProdvsProd] No new dump taken"]⟩
      else
        -- the dated run directory, log and tree copies exist from here on
        if w.tlPrev.toFinset = w.tlNew.toFinset then
          if w.req.filter (fun m => decide (¬ m ∈ w.tlPrev)) = [] ∧
             w.req.filter (fun m => decide (¬ m ∈ w.tlNew)) = [] then
            match changedRelE w.prevTree w.latestTree with
            | Except.error _ =>
              ⟨Outcome.diffCrash, w.lastRaw, true, false, false, none, []⟩
            | Except.ok changed =>
              let diffs := (newRel w.prevTree w.latestTree,
                            removedRel w.prevTree w.latestTree, changed)
              if ¬ w.openpyxlOk then
                ⟨Outcome.reportWriteFail, w.lastRaw, true, false, false,
                  some diffs, ["[ProdvsProd] XLSX module missing"]⟩
              else if ¬ w.xlsxOk then
                ⟨Outcome.reportWriteFail, w.lastRaw, true, false, false,
                  some diffs, ["[ProdvsProd] XLSX write failed"]⟩
              else if ¬ w.detailTplOk then
                ⟨Outcome.templateMissing, w.lastRaw, true, true, false,
                  some diffs, []⟩
              else if ¬ w.indexTplOk then
                -- reports.json is rewritten before the master template check
                ⟨Outcome.templateMissing, w.lastRaw, true, true, true,
                  some diffs, []⟩
              else
                ⟨Outcome.success, String.mk (latestName.data ++ ['\n']),
                  true, true, true, some diffs, ["[ProdvsProd] Report built"]⟩
          else
            ⟨Outcome.missingRequired, w.lastRaw, true, false, false, none,
              ["[ProdvsProd] Required metadata missing in dumps"]⟩
        else
          ⟨Outcome.structuralMismatch, w.lastRaw, true, false, false, none,
            ["[ProdvsProd] Folder name mismatch"]⟩

/- ===== concrete fixtures used by witnesses and counterexamples ===== -/

/-- A January run entry as main builds it for reports.json. -/
def recJan : RunRecord :=
  ⟨"2025-01-02", "62.0",
    "Production Dump Comparison: 1st January 2025 vs. 2nd January 2025",
    "1st January 2025", "2nd January 2025",
    "2025-01-02/index.html", "2025-01-02/codecomp.html"⟩

/-- A later February run entry with a distinct detail link. -/
def recFeb : RunRecord :=
  ⟨"2025-02-03", "62.0",
    "Production Dump Comparison: 2nd January 2025 vs. 3rd February 2025",
    "2nd January 2025", "3rd February 2025",
    "2025-02-03/index.html", "2025-02-03/codecomp.html"⟩

/-- The entry stored by a morning run on 2025-09-07. -/
def oldRec : RunRecord :=
  ⟨"2025-09-07", "62.0",
    "Production Dump Comparison: 1st September 2025 vs. 7th September 2025",
    "1st September 2025", "7th September 2025",
    "2025-09-07/index.html", "2025-09-07/codecomp.html"⟩

/-- The entry a same-day rerun appends: same runDate and detail link
(both derive from the execution date), different title and labels. -/
def newRec : RunRecord :=
  ⟨"2025-09-07", "62.0",
    "Production Dump Comparison: 5th September 2025 vs. 7th September 2025",
    "5th September 2025", "7th September 2025",
    "2025-09-07/index.html", "2025-09-07/codecomp.html"⟩

/-- Scenario A, previous side: classes/Foo.cls is 100 bytes with digest H1;
a second file is identical on both sides. -/
def prevTreeA : Tree :=
  [(["classes", "Foo.cls"], ⟨100, some "H1"⟩),
   (["objects", "Acct.object"], ⟨50, some "K"⟩)]

/-- Scenario A, latest side: classes/Foo.cls still 100 bytes but digest H2,
plus one added file. -/
def latestTreeA : Tree :=
  [(["classes", "Foo.cls"], ⟨100, some "H2"⟩),
   (["objects", "Acct.object"], ⟨50, some "K"⟩),
   (["pages", "Home.page"], ⟨7, some "P"⟩)]

/-- Previous tree with one unreadable file (classes/Foo.cls raises on read)
next to an ordinary file that genuinely changed. -/
def prevTreeU : Tree :=
  [(["classes", "Bar.cls"], ⟨7, some "Y1"⟩),
   (["classes", "Foo.cls"], ⟨100, none⟩)]

/-- Latest counterpart of the unreadable-file scenario: Bar.cls changed
content, Foo.cls has equal size and is readable. -/
def latestTreeU : Tree :=
  [(["classes", "Bar.cls"], ⟨7, some "Y2"⟩),
   (["classes", "Foo.cls"], ⟨100, some "H2"⟩)]

/-- Pipeline input for a healthy run: pointer names the older dump, a newer
dump exists, categories agree, and every backend is available. -/
def wSuccess : PipelineInput :=
  ⟨"prod_1Jan2025\n", ["prod_1Jan2025", "prod_2Jan2025"],
    ["classes", "objects"], ["classes", "objects"], ["classes"],
    [(["classes", "A.cls"], ⟨3, some "D1"⟩)],
    [(["classes", "A.cls"], ⟨3, some "D1"⟩)],
    true, true, true, true⟩

/-- Pipeline input where the pointer already names the newest dump: the
no-new-data condition of Scenario C. -/
def wSameDump : PipelineInput :=
  ⟨"prod_2Jan2025\n", ["prod_1Jan2025", "prod_2Jan2025"],
    ["classes", "objects"], ["classes", "objects"], ["classes"],
    [], [], true, true, true, true⟩

/-- Pipeline input for Scenario E: the latest snapshot has the strict
superset {classes, objects, pages} of top-level categories. -/
def wMismatch : PipelineInput :=
  ⟨"prod_1Jan2025\n", ["prod_1Jan2025", "prod_2Jan2025"],
    ["classes", "objects"], ["classes", "objects", "pages"], ["classes"],
    [], [], true, true, true, true⟩

/- ===== helper lemmas: string order ===== -/

theorem lexLe_refl : ∀ cs : List Char, lexLe cs cs = true := by
  intro cs
  induction cs with
  | nil => rfl
  | cons c rest ih => simp [lexLe, ih]

/- ===== helper lemmas: index deduplication ===== -/

theorem mem_of_mem_dedupeByHref {x : RunRecord} :
    ∀ (seen : List String) (m : List RunRecord),
      x ∈ dedupeByHref seen m → x ∈ m := by
  intro seen m
  induction m generalizing seen with
  | nil => simp [dedupeByHref]
  | cons r rs ih =>
    intro hx
    by_cases hr : r.detailHref ∈ seen
    · simp only [dedupeByHref, if_pos hr] at hx
      exact List.mem_cons_of_mem _ (ih _ hx)
    · simp only [dedupeByHref, if_neg hr, List.mem_cons] at hx
      rcases hx with h | h
      · simp [h]
      · exact List.mem_cons_of_mem _ (ih _ h)

theorem countP_dedupeByHref_of_seen {h : String} :
    ∀ (seen : List String) (m : List RunRecord), h ∈ seen →
      (dedupeByHref seen m).countP (fun r => decide (r.detailHref = h)) = 0 := by
  intro seen m
  induction m generalizing seen with
  | nil => intro _; simp [dedupeByHref]
  | cons r rs ih =>
    intro hs
    by_cases hr : r.detailHref ∈ seen
    · simp only [dedupeByHref, if_pos hr]
      exact ih _ hs
    · have hne : ¬ r.detailHref = h := fun he => hr (he ▸ hs)
      simp only [dedupeByHref, if_neg hr, List.countP_cons]
      simp [hne, ih (r.detailHref :: seen) (List.mem_cons_of_mem _ hs)]

theorem countP_dedupeByHref_eq_one {h : String} :
    ∀ (seen : List String) (m : List RunRecord), ¬ h ∈ seen →
      (∃ x ∈ m, x.detailHref = h) →
      (dedupeByHref seen m).countP (fun r => decide (r.detailHref = h)) = 1 := by
  intro seen m
  induction m generalizing seen with
  | nil => intro _ hex; simp at hex
  | cons r rs ih =>
    intro hs hex
    by_cases hr : r.detailHref ∈ seen
    · simp only [dedupeByHref, if_pos hr]
      apply ih _ hs
      rcases hex with ⟨x, hx, hxh⟩
      rcases List.mem_cons.mp hx with rfl | hx
      · exact absurd (hxh ▸ hr) hs
      · exact ⟨x, hx, hxh⟩
    · simp only [dedupeByHref, if_neg hr, List.countP_cons]
      by_cases hrh : r.detailHref = h
      · have h0 : (dedupeByHref (h :: seen) rs).countP
            (fun r => decide (r.detailHref = h)) = 0 :=
          countP_dedupeByHref_of_seen _ _ (List.mem_cons_self _ _)
        simp [hrh, h0]
      · rcases hex with ⟨x, hx, hxh⟩
        rcases List.mem_cons.mp hx with rfl | hx
        · exact absurd hxh hrh
        · have : (dedupeByHref (r.detailHref :: seen) rs).countP
              (fun r => decide (r.detailHref = h)) = 1 := by
            apply ih
            · intro hmem
              rcases List.mem_cons.mp hmem with he | he
              · exact hrh he.symm
              · exact hs he
            · exact ⟨x, hx, hxh⟩
          simp [hrh, this]

theorem dedupeByHref_covers {x : RunRecord} :
    ∀ (seen : List String) (m : List RunRecord), x ∈ m →
      x.detailHref ∈ seen ∨
        ∃ y ∈ dedupeByHref seen m, y.detailHref = x.detailHref := by
  intro seen m
  induction m generalizing seen with
  | nil => simp
  | cons r rs ih =>
    intro hx
    by_cases hr : r.detailHref ∈ seen
    · simp only [dedupeByHref, if_pos hr]
      rcases List.mem_cons.mp hx with he | hx2
      · exact Or.inl (by rw [he]; exact hr)
      · exact ih _ hx2
    · simp only [dedupeByHref, if_neg hr]
      rcases List.mem_cons.mp hx with he | hx2
      · exact Or.inr ⟨r, List.mem_cons_self _ _, by rw [he]⟩
      · rcases ih (r.detailHref :: seen) hx2 with hcov | ⟨y, hy, hyh⟩
        · rcases List.mem_cons.mp hcov with he2 | he2
          · exact Or.inr ⟨r, List.mem_cons_self _ _, he2.symm⟩
          · exact Or.inl he2
        · exact Or.inr ⟨y, List.mem_cons_of_mem _ hy, hyh⟩

theorem dedupeByHref_append_dup {e : RunRecord} :
    ∀ (seen : List String) (m1 m2 : List RunRecord),
      (e.detailHref ∈ seen ∨ ∃ x ∈ m1, x.detailHref = e.detailHref) →
      dedupeByHref seen (m1 ++ e :: m2) = dedupeByHref seen (m1 ++ m2) := by
  intro seen m1
  induction m1 generalizing seen with
  | nil =>
    intro m2 hyp
    rcases hyp with hin | ⟨x, hx, _⟩
    · simp [dedupeByHref, hin]
    · simp at hx
  | cons r rest ih =>
    intro m2 hyp
    by_cases hr : r.detailHref ∈ seen
    · simp only [List.cons_append, dedupeByHref, if_pos hr]
      apply ih
      rcases hyp with hin | ⟨x, hx, hxh⟩
      · exact Or.inl hin
      · rcases List.mem_cons.mp hx with rfl | hx
        · exact Or.inl (hxh ▸ hr)
        · exact Or.inr ⟨x, hx, hxh⟩
    · simp only [List.cons_append, dedupeByHref, if_neg hr]
      congr 1
      apply ih
      rcases hyp with hin | ⟨x, hx, hxh⟩
      · exact Or.inl (List.mem_cons_of_mem _ hin)
      · rcases List.mem_cons.mp hx with rfl | hx
        · exact Or.inl (by simp [hxh])
        · exact Or.inr ⟨x, hx, hxh⟩

theorem mem_dedupeByHref_of_unique {old : RunRecord} :
    ∀ (seen : List String) (m : List RunRecord), old ∈ m →
      (∀ x ∈ m, x.detailHref = old.detailHref → x = old) →
      ¬ old.detailHref ∈ seen → old ∈ dedupeByHref seen m := by
  intro seen m
  induction m generalizing seen with
  | nil => simp
  | cons r rs ih =>
    intro hmem huniq hseen
    by_cases hro : r = old
    · subst hro
      simp only [dedupeByHref, if_neg hseen]
      exact List.mem_cons_self _ _
    · have hmem' : old ∈ rs := by
        rcases List.mem_cons.mp hmem with he | h
        · exact absurd he.symm hro
        · exact h
      have hrh : ¬ r.detailHref = old.detailHref := fun he =>
        hro (huniq r (List.mem_cons_self _ _) he)
      by_cases hr : r.detailHref ∈ seen
      · simp only [dedupeByHref, if_pos hr]
        exact ih _ hmem' (fun x hx => huniq x (List.mem_cons_of_mem _ hx)) hseen
      · simp only [dedupeByHref, if_neg hr]
        apply List.mem_cons_of_mem
        apply ih _ hmem' (fun x hx => huniq x (List.mem_cons_of_mem _ hx))
        intro hcon
        rcases List.mem_cons.mp hcon with he | he
        · exact hrh he.symm
        · exact hseen he

/- ===== helper lemmas: diff engine ===== -/

theorem lookupTree_isSome_iff (t : Tree) (r : FPath) :
    (lookupTree t r).isSome = true ↔ r ∈ treeKeys t := by
  unfold lookupTree treeKeys
  rw [Option.isSome_map', List.find?_isSome]
  constructor
  · rintro ⟨e, he, hp⟩
    exact List.mem_map.mpr ⟨e, he, by simpa using hp⟩
  · intro h
    rcases List.mem_map.mp h with ⟨e, he, hfst⟩
    exact ⟨e, he, by simpa using hfst⟩

theorem lookupTree_mem {t : Tree} {r : FPath} {a : FileEntry}
    (h : lookupTree t r = some a) : (r, a) ∈ t := by
  unfold lookupTree at h
  rcases Option.map_eq_some'.mp h with ⟨e, hfind, he2⟩
  have hmem := List.mem_of_find?_eq_some hfind
  have hp := List.find?_some hfind
  have h1 : e.1 = r := by simpa using hp
  have : (r, a) = e := by
    rw [← h1, ← he2]
  rw [this]
  exact hmem

theorem mem_commonSorted {prev latest : Tree} {r : FPath} :
    r ∈ commonSorted prev latest ↔
      r ∈ treeKeys prev ∧ r ∈ treeKeys latest := by
  unfold commonSorted
  rw [List.mem_insertionSort, List.mem_dedup, List.mem_filter]
  simp

theorem changedStep_ok {a b : FileEntry} {ha hb : String}
    (h1 : a.readData = some ha) (h2 : b.readData = some hb) :
    changedStep a b =
      Except.ok (decide (¬ (a.sizeBytes = b.sizeBytes ∧ ha = hb))) := by
  unfold changedStep sha256
  rw [h1, h2]
  by_cases hs : a.sizeBytes = b.sizeBytes
  · rw [if_pos hs]
    show Except.ok (decide (¬ ha = hb)) = _
    simp only [Except.ok.injEq, decide_eq_decide]
    simp [hs]
  · rw [if_neg hs]
    show Except.ok true = _
    simp only [Except.ok.injEq]
    simp [hs]

theorem changedStep_error {a b : FileEntry}
    (hsz : a.sizeBytes = b.sizeBytes)
    (hread : a.readData = none ∨ b.readData = none) :
    changedStep a b = Except.error () := by
  unfold changedStep sha256
  rw [if_pos hsz]
  rcases hread with h | h
  · rw [h]
    rfl
  · rcases ha : a.readData with _ | d
    · rfl
    · rw [h]
      rfl

theorem mem_cons_filter_false {α : Type} {cs rs : List α} {r0 : α}
    {p : α → Bool} (hp0 : p r0 = false)
    (h : ∀ r, r ∈ cs ↔ r ∈ rs ∧ p r = true) :
    ∀ r, r ∈ cs ↔ r ∈ r0 :: rs ∧ p r = true := by
  intro r
  rw [h r, List.mem_cons]
  constructor
  · rintro ⟨hr, hp⟩
    exact ⟨Or.inr hr, hp⟩
  · rintro ⟨hr | hr, hp⟩
    · exact absurd (hr ▸ hp) (by simp [hp0])
    · exact ⟨hr, hp⟩

theorem mem_cons_filter_true {α : Type} {cs rs : List α} {r0 : α}
    {p : α → Bool} (hp0 : p r0 = true)
    (h : ∀ r, r ∈ cs ↔ r ∈ rs ∧ p r = true) :
    ∀ r, r ∈ r0 :: cs ↔ r ∈ r0 :: rs ∧ p r = true := by
  intro r
  rw [List.mem_cons, List.mem_cons, h r]
  constructor
  · rintro (hr | ⟨hr, hp⟩)
    · exact ⟨Or.inl hr, by rw [hr, hp0]⟩
    · exact ⟨Or.inr hr, hp⟩
  · rintro ⟨hr | hr, hp⟩
    · exact Or.inl hr
    · exact Or.inr ⟨hr, hp⟩

theorem changedLoop_ok {prev latest : Tree}
    (hp : allReadable prev) (hl : allReadable latest) :
    ∀ l : List FPath, ∃ cs, changedLoop prev latest l = Except.ok cs ∧
      ∀ r, (r ∈ cs ↔ r ∈ l ∧ changedTest prev latest r = true) := by
  intro l
  induction l with
  | nil => exact ⟨[], rfl, by simp⟩
  | cons r0 rs ih =>
    rcases ih with ⟨cs, hcs, hmemc⟩
    rcases hla : lookupTree prev r0 with _ | a <;>
      rcases hlb : lookupTree latest r0 with _ | b
    case none.none =>
      refine ⟨cs, ?_, ?_⟩
      · simp only [changedLoop]
        rw [hla, hlb, hcs]
      · exact mem_cons_filter_false (by simp [changedTest, hla]) hmemc
    case none.some =>
      refine ⟨cs, ?_, ?_⟩
      · simp only [changedLoop]
        rw [hla, hlb, hcs]
      · exact mem_cons_filter_false (by simp [changedTest, hla]) hmemc
    case some.none =>
      refine ⟨cs, ?_, ?_⟩
      · simp only [changedLoop]
        rw [hla, hlb, hcs]
      · exact mem_cons_filter_false (by simp [changedTest, hla, hlb]) hmemc
    case some.some =>
      obtain ⟨ha, hha⟩ : ∃ x, a.readData = some x :=
        Option.isSome_iff_exists.mp (hp _ (lookupTree_mem hla))
      obtain ⟨hb, hhb⟩ : ∃ x, b.readData = some x :=
        Option.isSome_iff_exists.mp (hl _ (lookupTree_mem hlb))
      have hstep := changedStep_ok hha hhb
      have htest : changedTest prev latest r0 =
          decide (¬ (a.sizeBytes = b.sizeBytes ∧ ha = hb)) := by
        simp [changedTest, hla, hlb, hha, hhb]
      by_cases hcond : a.sizeBytes = b.sizeBytes ∧ ha = hb
      · refine ⟨cs, ?_, ?_⟩
        · simp only [changedLoop]
          rw [hla, hlb]
          show (do
            let c ← changedStep a b
            let rest ← changedLoop prev latest rs
            pure (if c then r0 :: rest else rest)) = Except.ok cs
          rw [hstep, hcs]
          simp [hcond]
          rfl
        · exact mem_cons_filter_false (by simp [htest, hcond]) hmemc
      · refine ⟨r0 :: cs, ?_, ?_⟩
        · simp only [changedLoop]
          rw [hla, hlb]
          show (do
            let c ← changedStep a b
            let rest ← changedLoop prev latest rs
            pure (if c then r0 :: rest else rest)) = Except.ok (r0 :: cs)
          rw [hstep, hcs]
          simp [hcond]
          rfl
        · exact mem_cons_filter_true (by simp [htest, hcond]) hmemc

theorem changedLoop_error {prev latest : Tree} {r : FPath} {a b : FileEntry}
    (h1 : lookupTree prev r = some a) (h2 : lookupTree latest r = some b)
    (hsz : a.sizeBytes = b.sizeBytes)
    (hread : a.readData = none ∨ b.readData = none) :
    ∀ l : List FPath, r ∈ l →
      changedLoop prev latest l = Except.error () := by
  intro l
  induction l with
  | nil => simp
  | cons r0 rs ih =>
    intro hmem
    by_cases hr0 : r0 = r
    · subst hr0
      simp only [changedLoop]
      rw [h1, h2]
      show (do
        let c ← changedStep a b
        let rest ← changedLoop prev latest rs
        pure (if c then r0 :: rest else rest)) = Except.error ()
      rw [changedStep_error hsz hread]
      rfl
    · have hmem' : r ∈ rs := by
        rcases List.mem_cons.mp hmem with he | h
        · exact absurd he.symm hr0
        · exact h
      simp only [changedLoop]
      rcases hla : lookupTree prev r0 with _ | a0 <;>
        rcases hlb : lookupTree latest r0 with _ | b0
      · exact ih hmem'
      · exact ih hmem'
      · exact ih hmem'
      · show (do
          let c ← changedStep a0 b0
          let rest ← changedLoop prev latest rs
          pure (if c then r0 :: rest else rest)) = Except.error ()
        rw [ih hmem']
        rcases hstep : changedStep a0 b0 with _ | c0 <;> rfl

/- ===== C1 ===== -/

/-- C1: for every pair of readable snapshot trees, a path present in both is
classified Changed exactly when the sizes differ or the sizes match and the
digests differ (so an equal-size different-hash file is Changed), such a
common path is never New or Removed, and the New and Removed sets are
exactly the paths present only in the latest tree and only in the previous
tree respectively. -/
theorem diff_classification (prev latest : Tree)
    (hp : allReadable prev) (hl : allReadable latest)
    (r : FPath) (a b : FileEntry) (ha hb : String)
    (h1 : lookupTree prev r = some a) (h2 : lookupTree latest r = some b)
    (hha : a.readData = some ha) (hhb : b.readData = some hb) :
    ∃ cs, changedRelE prev latest = Except.ok cs ∧
      (r ∈ cs ↔ (¬ a.sizeBytes = b.sizeBytes ∨
        (a.sizeBytes = b.sizeBytes ∧ ¬ ha = hb))) ∧
      ¬ r ∈ newRel prev latest ∧ ¬ r ∈ removedRel prev latest ∧
      (∀ q, q ∈ newRel prev latest ↔
        (q ∈ treeKeys latest ∧ ¬ q ∈ treeKeys prev)) ∧
      (∀ q, q ∈ removedRel prev latest ↔
        (q ∈ treeKeys prev ∧ ¬ q ∈ treeKeys latest)) := by
  have hkp : r ∈ treeKeys prev :=
    (lookupTree_isSome_iff _ _).mp (by rw [h1]; rfl)
  have hkl : r ∈ treeKeys latest :=
    (lookupTree_isSome_iff _ _).mp (by rw [h2]; rfl)
  rcases changedLoop_ok hp hl (commonSorted prev latest) with ⟨cs, hcs, hmem⟩
  refine ⟨cs, hcs, ?_, ?_, ?_, ?_, ?_⟩
  · rw [hmem r, mem_commonSorted]
    have htest : changedTest prev latest r =
        decide (¬ (a.sizeBytes = b.sizeBytes ∧ ha = hb)) := by
      simp [changedTest, h1, h2, hha, hhb]
    rw [htest]
    simp only [hkp, hkl, true_and, decide_eq_true_eq]
    by_cases hs : a.sizeBytes = b.sizeBytes <;>
      by_cases hh : ha = hb <;> simp [hs, hh]
  · simp [newRel, List.mem_filter, hkp]
  · simp [removedRel, List.mem_filter, hkl]
  · intro q
    simp [newRel, List.mem_filter]
  · intro q
    simp [removedRel, List.mem_filter]

/-- C1 witness: Scenario A — classes/Foo.cls has 100 bytes on both sides
with digests H1 and H2, so it is Changed and neither New nor Removed, while
pages/Home.page is New. -/
theorem diff_classification_witness :
    ∃ cs, changedRelE prevTreeA latestTreeA = Except.ok cs ∧
      (["classes", "Foo.cls"] ∈ cs ↔ (¬ (100 : Nat) = 100 ∨
        ((100 : Nat) = 100 ∧ ¬ ("H1" : String) = "H2"))) ∧
      ¬ ["classes", "Foo.cls"] ∈ newRel prevTreeA latestTreeA ∧
      ¬ ["classes", "Foo.cls"] ∈ removedRel prevTreeA latestTreeA ∧
      (∀ q, q ∈ newRel prevTreeA latestTreeA ↔
        (q ∈ treeKeys latestTreeA ∧ ¬ q ∈ treeKeys prevTreeA)) ∧
      (∀ q, q ∈ removedRel prevTreeA latestTreeA ↔
        (q ∈ treeKeys prevTreeA ∧ ¬ q ∈ treeKeys latestTreeA)) :=
  diff_classification prevTreeA latestTreeA (by decide) (by decide)
    ["classes", "Foo.cls"] ⟨100, some "H1"⟩ ⟨100, some "H2"⟩ "H1" "H2"
    (by decide) (by decide) rfl rfl

/- ===== C2 ===== -/

/-- C2 counterexample: with classes/Foo.cls unreadable in the previous tree
(equal sizes on both sides force a hash) and classes/Bar.cls genuinely
changed, the diff computation raises instead of skipping the bad file: no
result sets are produced at all, so Bar.cls is not classified either.  The
Python loop has no try/except, so the exception aborts the run. -/
theorem unreadable_file_aborts_diff :
    changedRelE prevTreeU latestTreeU = Except.error () ∧
    ∀ cs, ¬ changedRelE prevTreeU latestTreeU = Except.ok cs := by
  refine ⟨rfl, ?_⟩
  intro cs h
  rw [show changedRelE prevTreeU latestTreeU = Except.error () from rfl] at h
  cases h

/-- C2 (amended): a read failure on any path present in both trees with
matching sizes propagates out of the changed-files loop as an exception —
the diff yields no result sets and the run aborts, rather than logging and
excluding the single path. -/
theorem read_failure_aborts_run (prev latest : Tree) (r : FPath)
    (a b : FileEntry)
    (h1 : lookupTree prev r = some a) (h2 : lookupTree latest r = some b)
    (hsz : a.sizeBytes = b.sizeBytes)
    (hread : a.readData = none ∨ b.readData = none) :
    changedRelE prev latest = Except.error () := by
  apply changedLoop_error h1 h2 hsz hread
  rw [mem_commonSorted]
  exact ⟨(lookupTree_isSome_iff _ _).mp (by rw [h1]; rfl),
         (lookupTree_isSome_iff _ _).mp (by rw [h2]; rfl)⟩

/-- C2 witness: the amended abort behavior at the concrete unreadable-file
trees. -/
theorem read_failure_aborts_run_witness :
    changedRelE prevTreeU latestTreeU = Except.error () :=
  read_failure_aborts_run prevTreeU latestTreeU ["classes", "Foo.cls"]
    ⟨100, none⟩ ⟨100, some "H2"⟩ (by decide) (by decide) rfl (Or.inl rfl)

/- ===== C5 ===== -/

/-- C5: the historical-index update is idempotent under re-append — for
every prior index contents and every RunRecord, after appending the record
and rewriting the index (once, or twice in a row), exactly one entry with
that record's detail-link identity remains. -/
theorem index_update_idempotent (existing : List RunRecord) (entry : RunRecord) :
    (updateIndex existing entry).countP
        (fun r => decide (r.detailHref = entry.detailHref)) = 1 ∧
    (updateIndex (updateIndex existing entry) entry).countP
        (fun r => decide (r.detailHref = entry.detailHref)) = 1 := by
  have key : ∀ l : List RunRecord,
      (updateIndex l entry).countP
        (fun r => decide (r.detailHref = entry.detailHref)) = 1 := by
    intro l
    apply countP_dedupeByHref_eq_one _ _ (by simp)
    refine ⟨entry, ?_, rfl⟩
    simp [sortRecords, List.mem_insertionSort]
  exact ⟨key existing, key (updateIndex existing entry)⟩

/- ===== C9 ===== -/

/-- C9 counterexample: when the stored index file does not parse as JSON,
the records it held are NOT preserved — rewriting a corrupt index holding
the January record produces an index containing only the new entry, with no
entry carrying the January detail link. -/
theorem corrupt_index_discards_history :
    rewriteIndex (StoredIndex.corrupt [recJan]) recFeb = [recFeb] ∧
    ¬ ∃ y ∈ rewriteIndex (StoredIndex.corrupt [recJan]) recFeb,
        y.detailHref = recJan.detailHref := by
  constructor
  · rfl
  · decide

/-- C9 (amended): records already stored in the historical index are
preserved up to deduplication by detail link whenever the stored file
parses as JSON — every prior record's detail link is still represented in
the rewritten index; when the stored file does not parse, json.loads falls
back to an empty list, the prior contents are discarded, and the rewritten
index is exactly the new entry. -/
theorem index_preserves_records_amended (rs : List RunRecord) (entry : RunRecord) :
    (∀ r ∈ rs, ∃ y ∈ rewriteIndex (StoredIndex.parsed rs) entry,
        y.detailHref = r.detailHref) ∧
    rewriteIndex (StoredIndex.corrupt rs) entry = [entry] := by
  constructor
  · intro r hr
    have hmem : r ∈ sortRecords (rs ++ [entry]) := by
      rw [sortRecords, List.mem_insertionSort]
      exact List.mem_append_left _ hr
    rcases dedupeByHref_covers [] _ hmem with hin | hex
    · simp at hin
    · exact hex
  · show dedupeByHref [] (sortRecords ([] ++ [entry])) = [entry]
    simp [sortRecords, dedupeByHref]

/-- C9 witness: the amended preservation applied to a parsed index holding
the January record and a February entry. -/
theorem index_preserves_records_witness :
    ∃ y ∈ rewriteIndex (StoredIndex.parsed [recJan]) recFeb,
      y.detailHref = recJan.detailHref :=
  (index_preserves_records_amended [recJan] recFeb).1 recJan
    (List.mem_cons_self _ _)

/- ===== C10 ===== -/

/-- C10: the deduplicating rewrite keeps the record that comes first after
the stable ascending sort by runDate — when the appended entry shares its
detail link and run date with a record already stored (a same-day rerun),
the stored record (with its old title and labels) survives and the new
entry is discarded. -/
theorem rerun_keeps_old_record (existing : List RunRecord) (old entry : RunRecord)
    (hmem : old ∈ existing)
    (hhref : old.detailHref = entry.detailHref)
    (hdate : old.runDate = entry.runDate)
    (huniq : ∀ x ∈ existing, x.detailHref = entry.detailHref → x = old)
    (hne : old ≠ entry) :
    old ∈ updateIndex existing entry ∧ ¬ entry ∈ updateIndex existing entry := by
  have hnotin : ¬ entry ∈ existing := fun h => hne (huniq entry h rfl).symm
  have hro : recordLe old entry := by
    show lexLe old.runDate.data entry.runDate.data = true
    rw [hdate]; exact lexLe_refl _
  have hsub : [old, entry].Sublist (existing ++ [entry]) :=
    List.Sublist.append (List.singleton_sublist.mpr hmem) (List.Sublist.refl _)
  have hpair : [old, entry].Sublist (sortRecords (existing ++ [entry])) :=
    List.pair_sublist_insertionSort hro hsub
  rcases List.cons_sublist_iff.mp hpair with ⟨r1, r2, hm, holdr1, hsub2⟩
  have hentry2 : entry ∈ r2 := List.singleton_sublist.mp hsub2
  rcases List.append_of_mem hentry2 with ⟨s1, s2, hr2⟩
  have hm' : sortRecords (existing ++ [entry]) = (r1 ++ s1) ++ entry :: s2 := by
    rw [hm, hr2, List.append_assoc]
  have hperm : (sortRecords (existing ++ [entry])).Perm (existing ++ [entry]) :=
    List.perm_insertionSort _ _
  have hcount : (sortRecords (existing ++ [entry])).count entry = 1 := by
    rw [hperm.count_eq entry]
    simp [List.count_append, List.count_eq_zero.mpr hnotin]
  have hsplit : (r1 ++ s1).count entry = 0 ∧ s2.count entry = 0 := by
    rw [hm', List.count_append, List.count_cons_self] at hcount
    omega
  have hnotleft : ¬ entry ∈ r1 ++ s1 := List.count_eq_zero.mp hsplit.1
  have hnots2 : ¬ entry ∈ s2 := List.count_eq_zero.mp hsplit.2
  have hentry_notin : ¬ entry ∈ (r1 ++ s1) ++ s2 := by
    intro hx
    rcases List.mem_append.mp hx with h | h
    · exact hnotleft h
    · exact hnots2 h
  have hupd : updateIndex existing entry = dedupeByHref [] ((r1 ++ s1) ++ s2) := by
    show dedupeByHref [] (sortRecords (existing ++ [entry])) =
      dedupeByHref [] ((r1 ++ s1) ++ s2)
    rw [hm']
    exact dedupeByHref_append_dup [] _ _
      (Or.inr ⟨old, List.mem_append_left _ holdr1, hhref⟩)
  have hm2sub : ∀ x, x ∈ (r1 ++ s1) ++ s2 →
      x ∈ sortRecords (existing ++ [entry]) := by
    intro x hx
    rw [hm']
    rcases List.mem_append.mp hx with h | h
    · exact List.mem_append_left _ h
    · exact List.mem_append_right _ (List.mem_cons_of_mem _ h)
  have hxinm : ∀ x ∈ (r1 ++ s1) ++ s2, x ∈ existing ∨ x = entry := by
    intro x hx
    have hx2 := hperm.mem_iff.mp (hm2sub x hx)
    simpa using hx2
  have huniq2 : ∀ x ∈ (r1 ++ s1) ++ s2,
      x.detailHref = old.detailHref → x = old := by
    intro x hx hxh
    rcases hxinm x hx with h | h
    · exact huniq x h (by rw [hxh, hhref])
    · exact absurd (h ▸ hx) hentry_notin
  constructor
  · rw [hupd]
    exact mem_dedupeByHref_of_unique [] _
      (List.mem_append_left _ (List.mem_append_left _ holdr1)) huniq2 (by simp)
  · rw [hupd]
    intro hx
    exact hentry_notin (mem_of_mem_dedupeByHref [] _ hx)

/-- C10 witness: a same-day rerun over an index holding one morning record
keeps the morning record and drops the rerun entry. -/
theorem rerun_keeps_old_record_witness :
    oldRec ∈ updateIndex [oldRec] newRec ∧
    ¬ newRec ∈ updateIndex [oldRec] newRec :=
  rerun_keeps_old_record [oldRec] oldRec newRec
    (List.mem_cons_self _ _) (by decide) (by decide)
    (by decide) (by decide)

/- ===== C3 ===== -/

/-- C3: when the resolved previous and latest snapshots carry the same
directory name, the run stops before comparing: the no-new-data branch exits
with code 0 after sending its own notification, leaving the pointer file
unchanged, creating no dated output directory, writing no artifacts and no
index update, and computing no diff. -/
theorem same_dump_no_new_data (w : PipelineInput) (latestName : String)
    (h1 : ¬ stripStr w.lastRaw = "")
    (h2 : stripStr w.lastRaw ∈ w.dumpDirs)
    (h3 : find_latest_dump_by_name w.dumpDirs = some latestName)
    (h4 : stripStr w.lastRaw = latestName) :
    runPipeline w = ⟨Outcome.noNewData, w.lastRaw, false, false, false, none,
      ["[ProdvsProd] No new dump taken"]⟩ ∧
    exitCode Outcome.noNewData = 0 := by
  subst h4
  refine ⟨?_, rfl⟩
  simp [runPipeline, h1, h2, h3]

/-- C3 witness: Scenario C at the concrete input whose pointer already names
the newest dump. -/
theorem same_dump_no_new_data_witness :
    runPipeline wSameDump = ⟨Outcome.noNewData, wSameDump.lastRaw, false,
      false, false, none, ["[ProdvsProd] No new dump taken"]⟩ ∧
    exitCode Outcome.noNewData = 0 :=
  same_dump_no_new_data wSameDump "prod_2Jan2025" (by decide) (by decide)
    (by decide) (by decide)

/- ===== C4 ===== -/

/-- C4: the pointer file is overwritten (with the latest snapshot name plus
a newline) only on the fully successful branch, after parity, required
metadata, the diff, all spreadsheet writes and both template reads have
succeeded; on every other branch the run exits with the pointer contents
unchanged, so a rerun retries the same comparison. -/
theorem pointer_update_only_on_success (w : PipelineInput) :
    ((runPipeline w).outcome = Outcome.success ∧
      ∃ nm, find_latest_dump_by_name w.dumpDirs = some nm ∧
        (runPipeline w).pointerAfter = String.mk (nm.data ++ ['\n'])) ∨
    (¬ (runPipeline w).outcome = Outcome.success ∧
      (runPipeline w).pointerAfter = w.lastRaw) := by
  by_cases h1 : stripStr w.lastRaw = ""
  · have hr : runPipeline w = ⟨Outcome.configError, w.lastRaw, false, false,
        false, none, ["[ProdvsProd] lastdumpcomp.date is empty"]⟩ := by
      simp [runPipeline, h1]
    rw [hr]
    exact Or.inr ⟨by simp, rfl⟩
  · by_cases h2 : stripStr w.lastRaw ∈ w.dumpDirs
    · rcases h3 : find_latest_dump_by_name w.dumpDirs with _ | nm
      · have hr : runPipeline w = ⟨Outcome.configError, w.lastRaw, false,
            false, false, none, []⟩ := by
          simp [runPipeline, h1, h2, h3]
        rw [hr]
        exact Or.inr ⟨by simp, rfl⟩
      · by_cases h4 : stripStr w.lastRaw = nm
        · rw [h4] at h1 h2
          have hr : runPipeline w = ⟨Outcome.noNewData, w.lastRaw, false,
              false, false, none, ["[ProdvsProd] No new dump taken"]⟩ := by
            simp [runPipeline, h1, h2, h3, h4]
          rw [hr]
          exact Or.inr ⟨by simp, rfl⟩
        · by_cases h5 : w.tlPrev.toFinset = w.tlNew.toFinset
          · by_cases h6 : w.req.filter (fun m => decide (¬ m ∈ w.tlPrev)) = [] ∧
                w.req.filter (fun m => decide (¬ m ∈ w.tlNew)) = []
            · have hreq1 : ∀ a ∈ w.req, a ∈ w.tlPrev := by
                intro a ha
                by_contra hna
                have hmem : a ∈ w.req.filter (fun m => decide (¬ m ∈ w.tlPrev)) :=
                  List.mem_filter.mpr ⟨ha, by simpa using hna⟩
                rw [h6.1] at hmem
                simp at hmem
              have hreq2 : ∀ a ∈ w.req, a ∈ w.tlNew := by
                intro a ha
                by_contra hna
                have hmem : a ∈ w.req.filter (fun m => decide (¬ m ∈ w.tlNew)) :=
                  List.mem_filter.mpr ⟨ha, by simpa using hna⟩
                rw [h6.2] at hmem
                simp at hmem
              rcases h7 : changedRelE w.prevTree w.latestTree with _ | changed
              · have hr : runPipeline w = ⟨Outcome.diffCrash, w.lastRaw, true,
                    false, false, none, []⟩ := by
                  simp [runPipeline, h1, h2, h3, h4, h5, h7]
                  exact ⟨hreq1, hreq2⟩
                rw [hr]
                exact Or.inr ⟨by simp, rfl⟩
              · by_cases h8 : w.openpyxlOk
                · by_cases h9 : w.xlsxOk
                  · by_cases h10 : w.detailTplOk
                    · by_cases h11 : w.indexTplOk
                      · have hr : runPipeline w = ⟨Outcome.success,
                            String.mk (nm.data ++ ['\n']), true, true, true,
                            some (newRel w.prevTree w.latestTree,
                              removedRel w.prevTree w.latestTree, changed),
                            ["[ProdvsProd] Report built"]⟩ := by
                          simp [runPipeline, h1, h2, h3, h4, h5, h7, h8, h9,
                            h10, h11]
                          exact ⟨hreq1, hreq2⟩
                        rw [hr]
                        exact Or.inl ⟨rfl, nm, rfl, rfl⟩
                      · have hr : runPipeline w = ⟨Outcome.templateMissing,
                            w.lastRaw, true, true, true,
                            some (newRel w.prevTree w.latestTree,
                              removedRel w.prevTree w.latestTree, changed),
                            []⟩ := by
                          simp [runPipeline, h1, h2, h3, h4, h5, h7, h8, h9,
                            h10, h11]
                          exact ⟨hreq1, hreq2⟩
                        rw [hr]
                        exact Or.inr ⟨by simp, rfl⟩
                    · have hr : runPipeline w = ⟨Outcome.templateMissing,
                          w.lastRaw, true, true, false,
                          some (newRel w.prevTree w.latestTree,
                            removedRel w.prevTree w.latestTree, changed),
                          []⟩ := by
                        simp [runPipeline, h1, h2, h3, h4, h5, h7, h8, h9, h10]
                        exact ⟨hreq1, hreq2⟩
                      rw [hr]
                      exact Or.inr ⟨by simp, rfl⟩
                  · have hr : runPipeline w = ⟨Outcome.reportWriteFail,
                        w.lastRaw, true, false, false,
                        some (newRel w.prevTree w.latestTree,
                          removedRel w.prevTree w.latestTree, changed),
                        ["[ProdvsProd] XLSX write failed"]⟩ := by
                      simp [runPipeline, h1, h2, h3, h4, h5, h7, h8, h9]
                      exact ⟨hreq1, hreq2⟩
                    rw [hr]
                    exact Or.inr ⟨by simp, rfl⟩
                · have hr : runPipeline w = ⟨Outcome.reportWriteFail,
                      w.lastRaw, true, false, false,
                      some (newRel w.prevTree w.latestTree,
                        removedRel w.prevTree w.latestTree, changed),
                      ["[ProdvsProd] XLSX module missing"]⟩ := by
                    simp [runPipeline, h1, h2, h3, h4, h5, h7, h8]
                    exact ⟨hreq1, hreq2⟩
                  rw [hr]
                  exact Or.inr ⟨by simp, rfl⟩
            · have hN : ¬ ((∀ a ∈ w.req, a ∈ w.tlPrev) ∧
                  ∀ a ∈ w.req, a ∈ w.tlNew) := by
                intro hN
                apply h6
                constructor
                · rw [List.filter_eq_nil_iff]
                  intro a ha
                  simp [hN.1 a ha]
                · rw [List.filter_eq_nil_iff]
                  intro a ha
                  simp [hN.2 a ha]
              have hr : runPipeline w = ⟨Outcome.missingRequired, w.lastRaw,
                  true, false, false, none,
                  ["[ProdvsProd] Required metadata missing in dumps"]⟩ := by
                simp [runPipeline, h1, h2, h3, h4, h5, hN]
              rw [hr]
              exact Or.inr ⟨by simp, rfl⟩
          · have hr : runPipeline w = ⟨Outcome.structuralMismatch, w.lastRaw,
                true, false, false, none,
                ["[ProdvsProd] Folder name mismatch"]⟩ := by
              simp [runPipeline, h1, h2, h3, h4, h5]
            rw [hr]
            exact Or.inr ⟨by simp, rfl⟩
    · have hr : runPipeline w = ⟨Outcome.configError, w.lastRaw, false,
          false, false, none, ["[ProdvsProd] previous dump missing"]⟩ := by
        simp [runPipeline, h1, h2]
      rw [hr]
      exact Or.inr ⟨by simp, rfl⟩

/-- C4 witness: at the structural-mismatch input the pointer is unchanged,
and at the healthy input it is overwritten with the latest name. -/
theorem pointer_update_only_on_success_witness :
    (¬ (runPipeline wMismatch).outcome = Outcome.success ∧
      (runPipeline wMismatch).pointerAfter = wMismatch.lastRaw) ∧
    ((runPipeline wSuccess).outcome = Outcome.success ∧
      (runPipeline wSuccess).pointerAfter =
        String.mk ("prod_2Jan2025".data ++ ['\n'])) := by
  constructor
  · rcases pointer_update_only_on_success wMismatch with ⟨hs, _⟩ | h
    · exact absurd hs (by decide)
    · exact h
  · rcases pointer_update_only_on_success wSuccess with ⟨hs, nm, hnm, hp⟩ | ⟨hs, _⟩
    · refine ⟨hs, ?_⟩
      have : nm = "prod_2Jan2025" := by
        have h0 : find_latest_dump_by_name wSuccess.dumpDirs =
            some "prod_2Jan2025" := by decide
        rw [h0] at hnm
        exact (Option.some.injEq _ _ ▸ hnm).symm
      rw [← this]
      exact hp
    · exact absurd hs (by decide)

/- ===== C6 ===== -/

/-- C6: the structural parity check compares the two snapshots' top-level
category sets for exact set equality and, on any inequality — in particular
when the latest set is a strict superset of the previous one — halts with
exit code 2 before any file diffing runs, leaving the pointer unchanged. -/
theorem parity_check_halts (w : PipelineInput) (latestName : String)
    (h1 : ¬ stripStr w.lastRaw = "")
    (h2 : stripStr w.lastRaw ∈ w.dumpDirs)
    (h3 : find_latest_dump_by_name w.dumpDirs = some latestName)
    (h4 : ¬ stripStr w.lastRaw = latestName)
    (h5 : ¬ w.tlPrev.toFinset = w.tlNew.toFinset ∨
      w.tlPrev.toFinset ⊂ w.tlNew.toFinset) :
    runPipeline w = ⟨Outcome.structuralMismatch, w.lastRaw, true, false,
      false, none, ["[ProdvsProd] Folder name mismatch"]⟩ ∧
    exitCode Outcome.structuralMismatch = 2 := by
  have hne : ¬ w.tlPrev.toFinset = w.tlNew.toFinset := by
    rcases h5 with h | h
    · exact h
    · intro he
      rw [he] at h
      exact ssubset_irrefl _ h
  refine ⟨?_, rfl⟩
  simp [runPipeline, h1, h2, h3, h4, hne]

/-- C6 witness: Scenario E — previous categories {classes, objects}, latest
{classes, objects, pages}, a strict superset, still fails the parity check
with no diff computed. -/
theorem parity_check_halts_witness :
    runPipeline wMismatch = ⟨Outcome.structuralMismatch, wMismatch.lastRaw,
      true, false, false, none, ["[ProdvsProd] Folder name mismatch"]⟩ ∧
    exitCode Outcome.structuralMismatch = 2 :=
  parity_check_halts wMismatch "prod_2Jan2025" (by decide) (by decide)
    (by decide) (by decide) (Or.inr (by decide))

/- ===== C7 ===== -/

/-- C7 counterexample: success and no-new-data are distinct terminal
outcomes, both reachable, yet both end the process with exit code 0 — the
no-new-data branch calls sys.exit(0) explicitly (its docstring says so) and
success returns from main normally — so the six outcomes are not pairwise
distinguishable by exit code alone. -/
theorem exit_codes_not_all_distinct :
    (runPipeline wSuccess).outcome = Outcome.success ∧
    (runPipeline wSameDump).outcome = Outcome.noNewData ∧
    ¬ Outcome.success = Outcome.noNewData ∧
    exitCode (runPipeline wSuccess).outcome = 0 ∧
    exitCode (runPipeline wSameDump).outcome = 0 :=
  ⟨by decide, by decide, by decide, by decide, by decide⟩

/-- C7 (amended): the four failure outcomes carry pairwise distinct exit
codes 1, 2, 3 and 6, all distinct from 0, so they are distinguishable from
one another and from the two zero-exit outcomes; but success and no-new-data
both exit 0 and are told apart by their notifications, not the exit code. -/
theorem exit_codes_shared_zero :
    exitCode Outcome.configError = 1 ∧
    exitCode Outcome.structuralMismatch = 2 ∧
    exitCode Outcome.missingRequired = 3 ∧
    exitCode Outcome.reportWriteFail = 6 ∧
    exitCode Outcome.success = 0 ∧
    exitCode Outcome.noNewData = 0 ∧
    (runPipeline wSuccess).mailSubjects ≠
      (runPipeline wSameDump).mailSubjects := by
  refine ⟨rfl, rfl, rfl, rfl, rfl, rfl, by decide⟩

/- ===== C8 ===== -/

/-- C8 counterexample: a relative path with no separator — a file sitting
directly at the snapshot root, whose Path.parts is a one-element list — is
bucketed under its own first (only) segment, not under the synthetic
"(root)" category; rel.parts is empty only for the bare root path, which the
file walk never yields. -/
theorem root_category_not_used :
    top_folder ["Foo.cls"] = "Foo.cls" ∧
    ¬ top_folder ["Foo.cls"] = "(root)" :=
  ⟨rfl, by decide⟩

/-- C8 (amended): the aggregator buckets every non-empty relative path under
its first path segment (so a separator-free path maps to its own single
segment), reserves "(root)" for the empty segment list alone, and summing
the per-category counts over the categories that occur yields the global
total of the aggregated set. -/
theorem aggregator_counts (rs : List FPath) :
    (∀ s rest, top_folder (s :: rest) = s) ∧
    top_folder [] = "(root)" ∧
    Finset.sum (rs.map top_folder).toFinset (fun c => categoryCount rs c)
      = rs.length := by
  refine ⟨fun s rest => rfl, rfl, ?_⟩
  have h := Multiset.toFinset_sum_count_eq (↑(rs.map top_folder) : Multiset String)
  simp only [List.toFinset_coe, Multiset.coe_count, Multiset.coe_card] at h
  unfold categoryCount
  rw [h, List.length_map]

end ProdVsProd
